import Mathlib

set_option maxRecDepth 4000

/-!
Verification development for the data-twirl reconciliation engine.

The TypeScript source is shallowly embedded here:
* strings are `List Char`; JS string helpers (`trim`, `includes`, `slice`,
  `toLowerCase`) are modelled character-exactly;
* JS numbers are modelled as exact rationals `ℚ`; `NaN` is modelled as
  `Option.none` where a parse can fail (`Number(...)` on a string), and the
  numeric fields of already-normalized records are plain rationals;
* `matchData`, `calculateStatistics` and `inferFileType` are embedded from the
  split-transaction revision of the file processor (the one that groups loads
  by consignment number and distributes sales values proportionally);
  `matchData` is embedded over the output types of `normalizeLoadDataColumns` /
  `normalizeSalesDataColumns`, i.e. over already-normalized records, and sales
  records carry their list position as identity (the source keeps identities in
  a JS `Set`).
-/

namespace DataTwirl

/-- Whitespace characters removed by JS `String.prototype.trim` (the common
ASCII ones; exotic Unicode space characters are not modelled). -/
def isWS (c : Char) : Bool :=
  c == ' ' || c == '\t' || c == '\n' || c == '\r'

/-- JS `s.trim()`: drop leading and trailing whitespace. -/
def jsTrim (s : List Char) : List Char :=
  (((s.dropWhile isWS).reverse).dropWhile isWS).reverse

/-- `listStartsWith pat s` is true when `pat` is a leading run of `s`. -/
def listStartsWith : List Char → List Char → Bool
  | [], _ => true
  | _ :: _, [] => false
  | p :: ps, c :: cs => p == c && listStartsWith ps cs

/-- JS `s.includes(pat)`: `pat` occurs contiguously inside `s`. -/
def containsSeq (pat : List Char) : List Char → Bool
  | [] => listStartsWith pat []
  | c :: cs => listStartsWith pat (c :: cs) || containsSeq pat cs

/-- Occurrence of `m` as a contiguous segment of `s` (the propositional
counterpart of `containsSeq`). -/
def SubSeg (m s : List Char) : Prop := ∃ a b, a ++ m ++ b = s

/-- `getLast4Digits`: keep only digit characters and take the last four
(`ref.toString().replace(/\D/g, '').slice(-4)`); the empty reference yields
the empty key. -/
def getLast4Digits (ref : List Char) : List Char :=
  if ref = [] then []
  else
    let numbers := ref.filter Char.isDigit
    numbers.drop (numbers.length - 4)

/-- The `'DESTINATION:'` structural marker rejected by `isValidSupplierRef`. -/
def destMarker : List Char := "DESTINATION:".toList

/-- The `'(Pre)'` structural marker rejected by `isValidSupplierRef`. -/
def preMarker : List Char := "(Pre)".toList

/-- `isValidSupplierRef`: a falsy (empty) reference is invalid, references
containing the sheet-annotation markers are invalid, and otherwise at least
one digit is required (`/\d/.test(ref)`). -/
def isValidSupplierRef (ref : List Char) : Bool :=
  if ref = [] then false
  else if containsSeq destMarker ref || containsSeq preMarker ref then false
  else ref.any Char.isDigit

/-- Floor of a rational, computed from its normalized fraction (the
denominator is positive, so flooring division gives the floor). -/
def ratFloor (q : ℚ) : ℤ := Int.fdiv q.num q.den

/-- JS `Math.round(x)` = ⌊x + 1/2⌋ (round half toward +∞). -/
def jsRound (q : ℚ) : ℤ := ratFloor (q + 1/2)

/-- Output of `normalizeLoadDataColumns` for one row:
`{ consign; cartons; variety; cartonType }`. -/
structure LoadRec where
  consign : List Char
  cartons : ℚ
  variety : List Char
  cartonType : List Char
deriving DecidableEq

/-- Output of `normalizeSalesDataColumns` for one row:
`{ supplierRef; sent; sold; totalValue }`. -/
structure SaleRec where
  supplierRef : List Char
  sent : ℚ
  sold : ℚ
  totalValue : ℚ
deriving DecidableEq

/-- The `status` field of a `MatchedRecord`. -/
inductive Status where
  | Matched
  | Unmatched
  | Split
deriving DecidableEq

/-- The central output entity of `matchData`.  Optional JS fields
(`proportionalValue`, `splitGroupId`) are `Option`s, absent = `none`. -/
structure MatchedRecord where
  consignNumber : List Char
  supplierRef : List Char
  status : Status
  variety : List Char
  cartonType : List Char
  cartonsSent : ℚ
  received : ℚ
  deviationSentReceived : ℚ
  soldOnMarket : ℚ
  deviationReceivedSold : ℚ
  totalValue : ℚ
  proportionalValue : Option ℚ
  reconciled : Bool
  isSplitTransaction : Bool
  splitGroupId : Option (List Char)
deriving DecidableEq

/-- Insert a value under a key into an insertion-ordered association list of
groups, appending to the existing group if the key is present (JS `Map`
iteration order is insertion order of first occurrence). -/
def insertGrouped {α : Type} (k : List Char) (v : α) :
    List (List Char × List α) → List (List Char × List α)
  | [] => [(k, [v])]
  | (k', g) :: rest =>
      if k' = k then (k', g ++ [v]) :: rest else (k', g) :: insertGrouped k v rest

/-- `Map.get`: first group stored under key `k`. -/
def lookupGroup {α : Type} (k : List Char) :
    List (List Char × List α) → Option (List α)
  | [] => none
  | (k', g) :: rest => if k' = k then some g else lookupGroup k rest

/-- Grouping of load records by their full consignment number
(`loadDataByConsign`); rows with an empty consignment number are skipped. -/
def groupLoadsByConsign (loads : List LoadRec) : List (List Char × List LoadRec) :=
  loads.foldl
    (fun acc load =>
      if load.consign = [] then acc else insertGrouped load.consign load acc)
    []

/-- Index of valid sales rows by the last-4-digit key of their trimmed
reference (`salesByLast4`); sales rows carry their list position as identity. -/
def salesByLast4 (sales : List (ℕ × SaleRec)) : List (List Char × List (ℕ × SaleRec)) :=
  sales.foldl
    (fun acc s =>
      let ref := jsTrim s.2.supplierRef
      if isValidSupplierRef ref then insertGrouped (getLast4Digits ref) s acc else acc)
    []

/-- Candidate selection for one consignment group: prefer an unconsumed sale
whose `sent` equals the group total, else fall back to the first unconsumed
candidate under the key. -/
def pickSale (processed : List ℕ) (totalCartonsSent : ℚ)
    (cands : List (ℕ × SaleRec)) : Option (ℕ × SaleRec) :=
  match cands.find? (fun p => decide (¬ p.1 ∈ processed) && decide (p.2.sent = totalCartonsSent)) with
  | some p => some p
  | none => cands.find? (fun p => decide (¬ p.1 ∈ processed))

/-- The shared `splitGroupId` string: `` `split-${consignNumber}` ``. -/
def splitTag (consignNumber : List Char) : List Char :=
  "split-".toList ++ consignNumber

/-- `proportion = totalCartonsSent > 0 ? cartonsSent / totalCartonsSent : 0`. -/
def proportionOf (cartonsSent totalCartonsSent : ℚ) : ℚ :=
  if 0 < totalCartonsSent then cartonsSent / totalCartonsSent else 0

/-- `Math.round(received * proportion)` for a split member. -/
def splitReceived (sale : SaleRec) (totalCartonsSent : ℚ) (load : LoadRec) : ℚ :=
  (jsRound (sale.sent * proportionOf load.cartons totalCartonsSent) : ℚ)

/-- `Math.round(soldOnMarket * proportion)` for a split member. -/
def splitSold (sale : SaleRec) (totalCartonsSent : ℚ) (load : LoadRec) : ℚ :=
  (jsRound (sale.sold * proportionOf load.cartons totalCartonsSent) : ℚ)

/-- One member record of a matched split transaction. -/
def mkSplitMember (consignNumber : List Char) (sale : SaleRec)
    (totalCartonsSent : ℚ) (load : LoadRec) : MatchedRecord :=
  { consignNumber := consignNumber
    supplierRef := sale.supplierRef
    status := Status.Split
    variety := load.variety
    cartonType := load.cartonType
    cartonsSent := load.cartons
    received := splitReceived sale totalCartonsSent load
    deviationSentReceived := load.cartons - splitReceived sale totalCartonsSent load
    soldOnMarket := splitSold sale totalCartonsSent load
    deviationReceivedSold :=
      splitReceived sale totalCartonsSent load - splitSold sale totalCartonsSent load
    totalValue := sale.totalValue
    proportionalValue := some (sale.totalValue * proportionOf load.cartons totalCartonsSent)
    reconciled := decide
      (|load.cartons - splitReceived sale totalCartonsSent load| ≤ 1 ∧
        |splitReceived sale totalCartonsSent load - splitSold sale totalCartonsSent load| ≤ 1)
    isSplitTransaction := true
    splitGroupId := some (splitTag consignNumber) }

/-- The record of a standard single-entry match. -/
def mkMatched (consignNumber : List Char) (sale : SaleRec) (load : LoadRec) :
    MatchedRecord :=
  { consignNumber := consignNumber
    supplierRef := sale.supplierRef
    status := Status.Matched
    variety := load.variety
    cartonType := load.cartonType
    cartonsSent := load.cartons
    received := sale.sent
    deviationSentReceived := load.cartons - sale.sent
    soldOnMarket := sale.sold
    deviationReceivedSold := sale.sent - sale.sold
    totalValue := sale.totalValue
    proportionalValue := none
    reconciled := decide (load.cartons = sale.sent ∧ sale.sent = sale.sold)
    isSplitTransaction := false
    splitGroupId := none }

/-- The record emitted for each member of a consignment group with no sales
match. -/
def mkUnmatchedLoad (consignNumber : List Char) (isSplitT : Bool)
    (load : LoadRec) : MatchedRecord :=
  { consignNumber := consignNumber
    supplierRef := []
    status := Status.Unmatched
    variety := load.variety
    cartonType := load.cartonType
    cartonsSent := load.cartons
    received := 0
    deviationSentReceived := load.cartons
    soldOnMarket := 0
    deviationReceivedSold := 0
    totalValue := 0
    proportionalValue := none
    reconciled := false
    isSplitTransaction := isSplitT
    splitGroupId := if isSplitT then some (splitTag consignNumber) else none }

/-- The synthetic record emitted for a never-consumed valid sales row. -/
def mkSalesOnly (ref : List Char) (sale : SaleRec) : MatchedRecord :=
  { consignNumber := []
    supplierRef := ref
    status := Status.Unmatched
    variety := []
    cartonType := []
    cartonsSent := 0
    received := sale.sent
    deviationSentReceived := -sale.sent
    soldOnMarket := sale.sold
    deviationReceivedSold := sale.sent - sale.sold
    totalValue := sale.totalValue
    proportionalValue := none
    reconciled := false
    isSplitTransaction := false
    splitGroupId := none }

/-- The candidate sales list for one consignment group: the `salesByLast4`
bucket under the group's last-4 key, or nothing when the key is empty
(`if (last4) { ... }`). -/
def groupCandidates (salesIdx : List (List Char × List (ℕ × SaleRec)))
    (consignNumber : List Char) : List (ℕ × SaleRec) :=
  if getLast4Digits consignNumber = [] then []
  else (lookupGroup (getLast4Digits consignNumber) salesIdx).getD []

/-- The records pushed for one consignment group, given the selected sales
row (if any): split members, a single match, or unmatched members. -/
def emitForGroup (consignNumber : List Char) (loadGroup : List LoadRec)
    (pick : Option (ℕ × SaleRec)) : List MatchedRecord :=
  match pick with
  | some p =>
      if 1 < loadGroup.length then
        loadGroup.map
          (mkSplitMember consignNumber p.2 ((loadGroup.map LoadRec.cartons).sum))
      else
        match loadGroup with
        | [] => []
        | load :: _ => [mkMatched consignNumber p.2 load]
  | none =>
      loadGroup.map (mkUnmatchedLoad consignNumber (decide (1 < loadGroup.length)))

/-- Processing of one consignment group inside `matchData`'s main loop.  The
state is the emitted records so far together with the `processedSales` set
(as the list of consumed sales positions; positions are added exactly when a
sale is selected). -/
def processGroup (salesIdx : List (List Char × List (ℕ × SaleRec)))
    (st : List MatchedRecord × List ℕ) (grp : List Char × List LoadRec) :
    List MatchedRecord × List ℕ :=
  (st.1 ++ emitForGroup grp.1 grp.2
      (pickSale st.2 ((grp.2.map LoadRec.cartons).sum) (groupCandidates salesIdx grp.1)),
    match pickSale st.2 ((grp.2.map LoadRec.cartons).sum) (groupCandidates salesIdx grp.1) with
    | some p => st.2 ++ [p.1]
    | none => st.2)

/-- The consignment-group pass of `matchData`: records emitted so far and the
final `processedSales` set. -/
def matchState (loads : List LoadRec) (sales : List SaleRec) :
    List MatchedRecord × List ℕ :=
  (groupLoadsByConsign loads).foldl (processGroup (salesByLast4 sales.enum)) ([], [])

/-- One step of the trailing unmatched-sales pass. -/
def salesOnlyStep (processed : List ℕ) (acc : List MatchedRecord)
    (s : ℕ × SaleRec) : List MatchedRecord :=
  if s.1 ∈ processed then acc
  else if isValidSupplierRef (jsTrim s.2.supplierRef) then
    acc ++ [mkSalesOnly (jsTrim s.2.supplierRef) s.2]
  else acc

/-- The trailing pass over sales rows never consumed by a consignment group. -/
def salesOnlyRecords (sales : List SaleRec) (processed : List ℕ) :
    List MatchedRecord :=
  sales.enum.foldl (salesOnlyStep processed) []

/-- `matchData` over normalized load and sales records (split-transaction
revision): group loads by consignment, consume at most one sales row per
group, emit Matched/Split/Unmatched records, then emit synthetic Unmatched
records for leftover valid sales rows. -/
def matchData (loads : List LoadRec) (sales : List SaleRec) : List MatchedRecord :=
  (matchState loads sales).1 ++ salesOnlyRecords sales (matchState loads sales).2

/-- The `Statistics` produced by `calculateStatistics`.  `unmatchedCount` is
the JS subtraction `length - matched - split`, kept as an integer. -/
structure Statistics where
  totalRecords : ℕ
  matchedCount : ℕ
  unmatchedCount : ℤ
  splitCount : ℕ
  totalValue : ℚ
  averageValue : ℚ
  matchRate : ℚ
deriving DecidableEq

/-- `calculateStatistics` (split-aware revision). -/
def calculateStatistics (data : List MatchedRecord) : Statistics :=
  let matchedRecords := data.filter (fun r => decide (r.status = Status.Matched))
  let splitRecords := data.filter (fun r => decide (r.status = Status.Split))
  let totalValue := (data.map MatchedRecord.totalValue).sum
  { totalRecords := data.length
    matchedCount := matchedRecords.length
    unmatchedCount := (data.length : ℤ) - matchedRecords.length - splitRecords.length
    splitCount := splitRecords.length
    totalValue := totalValue
    averageValue := if 0 < data.length then totalValue / (data.length : ℚ) else 0
    matchRate :=
      if 0 < data.length then
        (((matchedRecords.length : ℚ) + (splitRecords.length : ℚ)) / (data.length : ℚ)) * 100
      else 0 }

/-! ### File-type inference (`inferFileType`) -/

/-- A spreadsheet row: ordered (column name, cell value) pairs, with the cell
value in its JS string form (`String(value)`; the source stringifies every
cell before testing it). -/
abbrev Row := List (List Char × List Char)

/-- The file-type classification result. -/
inductive FileType where
  | load
  | sales
  | unknown
deriving DecidableEq

/-- Value of a digit string, most significant first. -/
def digitsVal (ds : List Char) : ℕ :=
  ds.foldl (fun a c => a * 10 + (c.toNat - 48)) 0

/-- Parse of an unsigned decimal literal (`123`, `123.45`, `.5`, `5.`);
`none` is NaN.  Exponent and hexadecimal forms of JS `Number` are outside the
modelled subset (spreadsheet cells and the `[0-9.-]`-stripped strings the
source parses never use them). -/
def parseUnsigned (s : List Char) : Option ℚ :=
  match s.drop (s.takeWhile Char.isDigit).length with
  | [] => if s.takeWhile Char.isDigit = [] then none else some (digitsVal (s.takeWhile Char.isDigit))
  | '.' :: fracPart =>
      if fracPart.drop (fracPart.takeWhile Char.isDigit).length ≠ [] then none
      else if s.takeWhile Char.isDigit = [] ∧ fracPart.takeWhile Char.isDigit = [] then none
      else some ((digitsVal (s.takeWhile Char.isDigit) : ℚ) +
        (digitsVal (fracPart.takeWhile Char.isDigit) : ℚ) /
          ((10 : ℚ) ^ (fracPart.takeWhile Char.isDigit).length))
  | _ => none

/-- JS `Number(string)`: trim, empty is `0`, optional sign, decimal literal;
`none` is NaN. -/
def jsNumber (s : List Char) : Option ℚ :=
  match jsTrim s with
  | [] => some 0
  | '+' :: r => parseUnsigned r
  | '-' :: r => (parseUnsigned r).map (fun q => -q)
  | r => parseUnsigned r

/-- The value shape `/^[a-z][0-9][a-z][0-9]{k,}$/i` (`k = 5` in scoring,
`k = 6` in the fallback sniffer). -/
def consignShapeAtLeast (k : ℕ) : List Char → Bool
  | a :: b :: c :: rest =>
      a.isAlpha && b.isDigit && c.isAlpha &&
        decide (k ≤ rest.length) && rest.all Char.isDigit
  | _ => false

/-- `\d+(\.\d{2})?$`: digits then an optional two-decimal suffix. -/
def digitsThenOptCents (s : List Char) : Bool :=
  decide (1 ≤ (s.takeWhile Char.isDigit).length) &&
    (match s.drop (s.takeWhile Char.isDigit).length with
     | [] => true
     | '.' :: d1 :: d2 :: [] => d1.isDigit && d2.isDigit
     | _ => false)

/-- `\s*\d+(\.\d{2})?$`, the tail of the monetary patterns. -/
def moneyTail (s : List Char) : Bool := digitsThenOptCents (s.dropWhile isWS)

/-- The scoring money shape `/^(\$|r|zar|£|€)?\s*\d+(\.\d{2})?$/` tested on
the lower-cased cell value. -/
def moneyShapeLower (s : List Char) : Bool :=
  moneyTail s ||
    (match s with
     | '$' :: t => moneyTail t
     | 'r' :: t => moneyTail t
     | '£' :: t => moneyTail t
     | '€' :: t => moneyTail t
     | 'z' :: 'a' :: 'r' :: t => moneyTail t
     | _ => false)

/-- `^\d+\.\d{2}$`: digits with exactly a two-decimal suffix. -/
def decimalExactly2 (s : List Char) : Bool :=
  decide (1 ≤ (s.takeWhile Char.isDigit).length) &&
    (match s.drop (s.takeWhile Char.isDigit).length with
     | '.' :: d1 :: d2 :: [] => d1.isDigit && d2.isDigit
     | _ => false)

/-- The fallback money shape
`/^((\$|R|ZAR|£|€)\s*\d+(?:\.\d{2})?)$|^\d+\.\d{2}$/` tested on the raw cell
value (no case-insensitive flag). -/
def moneyStrict (s : List Char) : Bool :=
  (match s with
   | '$' :: t => moneyTail t
   | 'R' :: t => moneyTail t
   | '£' :: t => moneyTail t
   | '€' :: t => moneyTail t
   | 'Z' :: 'A' :: 'R' :: t => moneyTail t
   | _ => false) ||
  decimalExactly2 s

/-- `[a-z0-9]` on an already lower-cased value. -/
def alnumLower (c : Char) : Bool :=
  (decide ('a' ≤ c) && decide (c ≤ 'z')) || c.isDigit

/-- `/^[a-z0-9]+c[0-9]+$/i` on the lower-cased value: an alphanumeric run,
one `c`, then a trailing digit run. -/
def valueConsignCode (s : List Char) : Bool :=
  match s.reverse.drop (s.reverse.takeWhile Char.isDigit).length with
  | 'c' :: a =>
      decide (1 ≤ (s.reverse.takeWhile Char.isDigit).length) &&
        decide (1 ≤ a.length) && a.all alnumLower
  | _ => false

/-- `/\d{4,}/`: four consecutive digits somewhere in the value. -/
def has4Digits : List Char → Bool
  | a :: b :: c :: d :: rest =>
      (a.isDigit && b.isDigit && c.isDigit && d.isDigit) ||
        has4Digits (b :: c :: d :: rest)
  | _ => false

/-- A contained `\d+\.\d{2}` occurrence: digit, dot, digit, digit in a row. -/
def hasDecimal2 : List Char → Bool
  | a :: b :: c :: d :: rest =>
      (a.isDigit && b == '.' && c.isDigit && d.isDigit) ||
        hasDecimal2 (b :: c :: d :: rest)
  | _ => false

/-- Does the string contain any of the given literal patterns? -/
def containsAny (pats : List (List Char)) (s : List Char) : Bool :=
  pats.any (fun p => containsSeq p s)

/-- Key regex `/consign|load|pallet|ctns|carton|box/i`. -/
def loadKeyPats1 : List (List Char) :=
  ["consign".toList, "load".toList, "pallet".toList, "ctns".toList,
   "carton".toList, "box".toList]

/-- Key regex `/variety|orchard|grade|brand|ctn type/i`. -/
def loadKeyPats2 : List (List Char) :=
  ["variety".toList, "orchard".toList, "grade".toList, "brand".toList,
   "ctn type".toList]

/-- Key regex `/supplier|reference|ref|receipt|invoice/i`. -/
def salesKeyPats1 : List (List Char) :=
  ["supplier".toList, "reference".toList, "ref".toList, "receipt".toList,
   "invoice".toList]

/-- Key regex `/sold|sales|value|amount|delivery/i`. -/
def salesKeyPats2 : List (List Char) :=
  ["sold".toList, "sales".toList, "value".toList, "amount".toList,
   "delivery".toList]

/-- Key regex `/total value|average price/i`. -/
def salesKeyPats3 : List (List Char) :=
  ["total value".toList, "average price".toList]

/-- Value regex `/\$|r|zar|\d+\.\d{2}/` on the lower-cased value. -/
def moneyHint (value : List Char) : Bool :=
  value.contains '$' || value.contains 'r' ||
    containsSeq "zar".toList value || hasDecimal2 value

/-- The per-key/value score deltas of `inferFileType`'s inner loop
(load delta, sales delta); key and value are lower-cased as in the source. -/
def scoreKV (kv : List Char × List Char) : ℕ × ℕ :=
  ((if containsAny loadKeyPats1 (kv.1.map Char.toLower) then 2 else 0) +
    (if containsAny loadKeyPats2 (kv.1.map Char.toLower) then 2 else 0) +
    (match jsNumber (kv.2.map Char.toLower) with
     | some q => if 0 < q ∧ q < 1000 then 1 else 0
     | none => 0) +
    (if valueConsignCode (kv.2.map Char.toLower) ||
        (containsSeq "consign".toList (kv.1.map Char.toLower) &&
          has4Digits (kv.2.map Char.toLower)) then 3 else 0),
   (if containsAny salesKeyPats1 (kv.1.map Char.toLower) then 2 else 0) +
    (if containsAny salesKeyPats2 (kv.1.map Char.toLower) then 2 else 0) +
    (if containsAny salesKeyPats3 (kv.1.map Char.toLower) then 3 else 0) +
    (if containsSeq "ref".toList (kv.1.map Char.toLower) &&
        has4Digits (kv.2.map Char.toLower) then 3 else 0) +
    (if moneyHint (kv.2.map Char.toLower) then 2 else 0))

/-- Score deltas contributed by one sample row: the whole-row value checks
(consignment shape +5 load, money shape +3 sales) plus the per-key deltas. -/
def scoreRow (row : Row) : ℕ × ℕ :=
  row.foldl (fun acc kv => (acc.1 + (scoreKV kv).1, acc.2 + (scoreKV kv).2))
    ((if (row.map (fun kv => kv.2.map Char.toLower)).any (consignShapeAtLeast 5)
        then 5 else 0),
      (if (row.map (fun kv => kv.2.map Char.toLower)).any moneyShapeLower
        then 3 else 0))

/-- Accumulated (loadScores, salesScores) over the sampled rows. -/
def sampleScores (rows : List Row) : ℕ × ℕ :=
  rows.foldl (fun acc row => (acc.1 + (scoreRow row).1, acc.2 + (scoreRow row).2))
    (0, 0)

/-- Fallback sniffer: some raw cell value matches
`/^[a-z][0-9][a-z][0-9]{6,}$/i`. -/
def hasConsignmentPattern (rows : List Row) : Bool :=
  rows.any (fun row => row.any (fun kv => consignShapeAtLeast 6 kv.2))

/-- Fallback sniffer: some raw cell value matches the strict monetary
pattern. -/
def hasMonetaryPattern (rows : List Row) : Bool :=
  rows.any (fun row => row.any (fun kv => moneyStrict kv.2))

/-- `inferFileType`: empty data is `unknown`; otherwise classify by the
dominant score past the floor 5, falling back to the value-shape sniffers,
and `unknown` only when everything fails. -/
def inferFileType (data : List Row) : FileType :=
  if data.length = 0 then FileType.unknown
  else if (sampleScores (data.take 10)).1 > (sampleScores (data.take 10)).2 ∧
      (sampleScores (data.take 10)).1 > 5 then FileType.load
  else if (sampleScores (data.take 10)).2 > (sampleScores (data.take 10)).1 ∧
      (sampleScores (data.take 10)).2 > 5 then FileType.sales
  else if hasConsignmentPattern (data.take 10) then FileType.load
  else if hasMonetaryPattern (data.take 10) then FileType.sales
  else FileType.unknown

/-! ### Numeric extraction (`extractNumber`, sales `totalValue`) -/

/-- A cell value as seen by `extractNumber`: a JS number or a string (other
`typeof`s are stringified upstream). -/
inductive CellValue where
  | num (q : ℚ)
  | str (s : List Char)
deriving DecidableEq

/-- `value.replace(/[^0-9.-]/g, '')`. -/
def stripNonNumeric (s : List Char) : List Char :=
  s.filter (fun c => c.isDigit || c == '.' || c == '-')

/-- `extractNumber`: numbers pass through, a falsy value gives `0`, otherwise
strip non-`[0-9.-]` characters and parse the remainder (`0` when the
remainder is empty); `none` is NaN. -/
def extractNumber : CellValue → Option ℚ
  | CellValue.num q => some q
  | CellValue.str s =>
      if s = [] then some 0
      else if stripNonNumeric s = [] then some 0
      else jsNumber (stripNonNumeric s)

/-- The sales `totalValue` normalization: no mapped column means `0`; a
string cell is stripped and parsed; a final `isNaN` guard maps NaN to `0`. -/
def normalizeTotalValue (raw : Option CellValue) : ℚ :=
  match raw with
  | none => 0
  | some (CellValue.num q) => q
  | some (CellValue.str s) =>
      match jsNumber (stripNonNumeric s) with
      | none => 0
      | some q => q

/-- Normalization of a text field: the mapped column's value when one was
found, the empty string otherwise
(`normalizedRow.supplierRef = supplierRefKey ? row[supplierRefKey] : ''`,
and likewise for `consign`, `variety` and `cartonType`). -/
def normalizeTextField (raw : Option (List Char)) : List Char :=
  match raw with
  | none => []
  | some s => s

/-! ### Predicates and concrete inputs used by the claims -/

/-- The supplier reference carried by an output record is either the empty
placeholder, or (possibly after one round of trimming) a reference whose
trimmed form passes `isValidSupplierRef`. -/
def SupOK (r : MatchedRecord) : Prop :=
  r.supplierRef = [] ∨
    ∃ s0 : List Char, (r.supplierRef = s0 ∨ r.supplierRef = jsTrim s0) ∧
      isValidSupplierRef (jsTrim s0) = true

/-- Shape invariant satisfied by every record `matchData` emits: the two
deviations are recomputed from the quantity fields, `reconciled` follows the
per-status policy, and the supplier reference is a placeholder or valid. -/
def GoodRec (r : MatchedRecord) : Prop :=
  r.deviationSentReceived = r.cartonsSent - r.received ∧
  r.deviationReceivedSold = r.received - r.soldOnMarket ∧
  (r.status = Status.Unmatched → r.reconciled = false) ∧
  (r.status = Status.Matched →
    (r.reconciled = true ↔ (r.cartonsSent = r.received ∧ r.received = r.soldOnMarket))) ∧
  (r.status = Status.Split →
    (r.reconciled = true ↔
      (|r.cartonsSent - r.received| ≤ 1 ∧ |r.received - r.soldOnMarket| ≤ 1))) ∧
  SupOK r

/-- All members of all groups of an insertion-ordered grouping satisfy `P`. -/
def GroupsAll {α : Type} (P : α → Prop) (gs : List (List Char × List α)) : Prop :=
  ∀ kg ∈ gs, ∀ x ∈ kg.2, P x

/-- Invariant of the consignment-group pass: all emitted records are
well-shaped and no sales position has been consumed twice. -/
def StInv (st : List MatchedRecord × List ℕ) : Prop :=
  (∀ r ∈ st.1, GoodRec r) ∧ st.2.Nodup

/-- The claim's notion of a structurally invalid sales reference: it contains
one of the sheet markers, or has no digit at all. -/
def InvalidRefStr (s : List Char) : Prop :=
  containsSeq destMarker s = true ∨ containsSeq preMarker s = true ∨
    s.any Char.isDigit = false

/-- Scenario C loads: two rows sharing consignment `Z1C0801999`, 60 and 40
cartons. -/
def c3Loads : List LoadRec :=
  [⟨"Z1C0801999".toList, 60, "GALA".toList, "C15".toList⟩,
   ⟨"Z1C0801999".toList, 40, "FUJI".toList, "C15".toList⟩]

/-- Scenario C sales: one row keyed `1999` with sent 100, sold 80, value
1000. -/
def c3Sales : List SaleRec := [⟨"REF1999".toList, 100, 80, 1000⟩]

/-- A single load row with no matching sales row. -/
def demoLoad : LoadRec := ⟨"A1".toList, 5, [], []⟩

/-- The Unmatched record `matchData [demoLoad] []` emits. -/
def demoRec : MatchedRecord :=
  { consignNumber := "A1".toList
    supplierRef := []
    status := Status.Unmatched
    variety := []
    cartonType := []
    cartonsSent := 5
    received := 0
    deviationSentReceived := 5
    soldOnMarket := 0
    deviationReceivedSold := 0
    totalValue := 0
    proportionalValue := none
    reconciled := false
    isSplitTransaction := false
    splitGroupId := none }

/-- A sales row whose reference cell is empty (as produced when no supplier
reference column is found for the row). -/
def c6Sale : SaleRec := ⟨[], 7, 3, 50⟩

/-- A one-row sample whose single cell has the consignment value shape: it
scores exactly the floor 5 on the load side, 0 on the sales side. -/
def c7Rows : List Row := [[("x".toList, "a1b1234567".toList)]]

/-- A one-row sample matching no pattern at all. -/
def c7Benign : List Row := [[("k".toList, "hello".toList)]]

/-! ### Generic list and string lemmas -/

/-- A `foldl` preserves any invariant preserved by each step. -/
theorem foldlInv {α β : Type _} {f : β → α → β} {I : β → Prop}
    (h : ∀ b a, I b → I (f b a)) :
    ∀ (l : List α) (b : β), I b → I (l.foldl f b) := by
  intro l
  induction l with
  | nil => intro b hb; exact hb
  | cons x xs ih => intro b hb; exact ih (f b x) (h b x hb)

theorem listStartsWith_iff :
    ∀ (pat s : List Char), listStartsWith pat s = true ↔ ∃ b, pat ++ b = s
  | [], s => by simp [listStartsWith]
  | p :: ps, [] => by simp [listStartsWith]
  | p :: ps, c :: cs => by
      simp only [listStartsWith, Bool.and_eq_true, beq_iff_eq,
        listStartsWith_iff ps cs]
      constructor
      · rintro ⟨rfl, b, rfl⟩; exact ⟨b, rfl⟩
      · rintro ⟨b, h⟩
        injection h with h1 h2
        exact ⟨h1, b, h2⟩

theorem containsSeq_iff : ∀ (pat s : List Char), containsSeq pat s = true ↔ SubSeg pat s
  | pat, [] => by
      simp only [containsSeq, listStartsWith_iff, SubSeg]
      constructor
      · rintro ⟨b, h⟩; exact ⟨[], b, h⟩
      · rintro ⟨a, b, h⟩
        rcases List.append_eq_nil.mp h with ⟨h1, h2⟩
        rcases List.append_eq_nil.mp h1 with ⟨rfl, rfl⟩
        exact ⟨[], rfl⟩
  | pat, c :: cs => by
      simp only [containsSeq, Bool.or_eq_true, listStartsWith_iff,
        containsSeq_iff pat cs, SubSeg]
      constructor
      · rintro (⟨b, h⟩ | ⟨a, b, h⟩)
        · exact ⟨[], b, h⟩
        · exact ⟨c :: a, b, by simp [h]⟩
      · rintro ⟨a, b, h⟩
        cases a with
        | nil => exact Or.inl ⟨b, h⟩
        | cons a0 as =>
            right
            injection h with h1 h2
            exact ⟨as, b, h2⟩

/-- A nonempty segment made of non-`p` characters survives `dropWhile p`. -/
theorem subSeg_dropWhile {p : Char → Bool} {m : List Char} (hm : m ≠ [])
    (hnp : ∀ c ∈ m, p c = false) :
    ∀ {l : List Char}, SubSeg m l → SubSeg m (l.dropWhile p) := by
  intro l
  induction l with
  | nil =>
      rintro ⟨a, b, h⟩
      rcases List.append_eq_nil.mp h with ⟨h1, -⟩
      rcases List.append_eq_nil.mp h1 with ⟨-, h2⟩
      exact absurd h2 hm
  | cons c t ih =>
      rintro ⟨a, b, h⟩
      by_cases hp : p c = true
      · rw [List.dropWhile_cons, if_pos hp]
        apply ih
        cases a with
        | nil =>
            cases m with
            | nil => exact absurd rfl hm
            | cons m0 ms =>
                injection h with h1 h2
                subst h1
                exact absurd hp (by simp [hnp m0 (List.mem_cons_self m0 ms)])
        | cons a0 as =>
            injection h with h1 h2
            exact ⟨as, b, h2⟩
      · rw [List.dropWhile_cons, if_neg hp]
        exact ⟨a, b, h⟩

theorem subSeg_reverse {m l : List Char} (h : SubSeg m l) :
    SubSeg m.reverse l.reverse := by
  rcases h with ⟨a, b, rfl⟩
  exact ⟨b.reverse, a.reverse, by simp⟩

/-- A nonempty, whitespace-free segment of `s` is still a segment of
`jsTrim s`: trimming only removes whitespace from the two ends. -/
theorem subSeg_jsTrim {m s : List Char} (hm : m ≠ [])
    (hws : ∀ c ∈ m, isWS c = false) (h : SubSeg m s) : SubSeg m (jsTrim s) := by
  have h1 := subSeg_dropWhile hm hws h
  have h2 := subSeg_reverse h1
  have hm' : m.reverse ≠ [] := by simpa using hm
  have hws' : ∀ c ∈ m.reverse, isWS c = false := fun c hc =>
    hws c (List.mem_reverse.mp hc)
  have h3 := subSeg_dropWhile hm' hws' h2
  have h4 := subSeg_reverse h3
  simpa [jsTrim] using h4

theorem mem_of_mem_dropWhile {p : Char → Bool} {c : Char} :
    ∀ {l : List Char}, c ∈ l.dropWhile p → c ∈ l := by
  intro l
  induction l with
  | nil => intro h; simp at h
  | cons x t ih =>
      intro h
      by_cases hp : p x = true
      · rw [List.dropWhile_cons, if_pos hp] at h
        exact List.mem_cons_of_mem _ (ih h)
      · rw [List.dropWhile_cons, if_neg hp] at h
        exact h

/-- Every character of the trimmed string is a character of the original. -/
theorem mem_of_mem_jsTrim {c : Char} {s : List Char} (h : c ∈ jsTrim s) :
    c ∈ s := by
  unfold jsTrim at h
  rw [List.mem_reverse] at h
  have h1 := mem_of_mem_dropWhile h
  rw [List.mem_reverse] at h1
  exact mem_of_mem_dropWhile h1

/-- Unpacking of `isValidSupplierRef ref = true`. -/
theorem valid_facts {t : List Char} (h : isValidSupplierRef t = true) :
    t ≠ [] ∧ containsSeq destMarker t = false ∧ containsSeq preMarker t = false ∧
      t.any Char.isDigit = true := by
  unfold isValidSupplierRef at h
  by_cases h1 : t = []
  · rw [if_pos h1] at h; cases h
  · rw [if_neg h1] at h
    by_cases h2 : (containsSeq destMarker t || containsSeq preMarker t) = true
    · rw [if_pos h2] at h; cases h
    · rw [if_neg h2] at h
      have h2' : (containsSeq destMarker t || containsSeq preMarker t) = false := by
        simpa using h2
      rcases Bool.or_eq_false_iff.mp h2' with ⟨hd, hp⟩
      exact ⟨h1, hd, hp, h⟩

/-! ### Shape invariant of emitted records -/

theorem goodRec_mkSplitMember {consignNumber : List Char} {sale : SaleRec}
    {totalCartonsSent : ℚ} {load : LoadRec}
    (hval : isValidSupplierRef (jsTrim sale.supplierRef) = true) :
    GoodRec (mkSplitMember consignNumber sale totalCartonsSent load) := by
  refine ⟨rfl, rfl, ?_, ?_, ?_, ?_⟩
  · intro h; cases h
  · intro h; cases h
  · intro _
    simp [mkSplitMember]
  · exact Or.inr ⟨sale.supplierRef, Or.inl rfl, hval⟩

theorem goodRec_mkMatched {consignNumber : List Char} {sale : SaleRec}
    {load : LoadRec}
    (hval : isValidSupplierRef (jsTrim sale.supplierRef) = true) :
    GoodRec (mkMatched consignNumber sale load) := by
  refine ⟨rfl, rfl, ?_, ?_, ?_, ?_⟩
  · intro h; cases h
  · intro _
    simp [mkMatched]
  · intro h; cases h
  · exact Or.inr ⟨sale.supplierRef, Or.inl rfl, hval⟩

theorem goodRec_mkUnmatchedLoad {consignNumber : List Char} {isSplitT : Bool}
    {load : LoadRec} :
    GoodRec (mkUnmatchedLoad consignNumber isSplitT load) := by
  refine ⟨?_, ?_, ?_, ?_, ?_, Or.inl rfl⟩
  · show load.cartons = load.cartons - 0
    rw [sub_zero]
  · show (0 : ℚ) = 0 - 0
    rw [sub_zero]
  · intro _; rfl
  · intro h; cases h
  · intro h; cases h

theorem goodRec_mkSalesOnly {ref : List Char} {sale : SaleRec}
    (href : ref = jsTrim sale.supplierRef)
    (hval : isValidSupplierRef ref = true) :
    GoodRec (mkSalesOnly ref sale) := by
  refine ⟨?_, rfl, ?_, ?_, ?_, ?_⟩
  · show -sale.sent = 0 - sale.sent
    rw [zero_sub]
  · intro _; rfl
  · intro h; cases h
  · intro h; cases h
  · exact Or.inr ⟨sale.supplierRef, Or.inr href, href ▸ hval⟩

/-! ### Invariants of the matching passes -/

theorem groupsAll_insertGrouped {α : Type} {P : α → Prop} {k : List Char}
    {v : α} (hv : P v) :
    ∀ {gs : List (List Char × List α)}, GroupsAll P gs →
      GroupsAll P (insertGrouped k v gs) := by
  intro gs
  induction gs with
  | nil =>
      intro _ kg hkg x hx
      rcases List.mem_singleton.mp hkg with rfl
      rcases List.mem_singleton.mp hx with rfl
      exact hv
  | cons kg0 rest ih =>
      obtain ⟨k', g⟩ := kg0
      intro hall kg hkg x hx
      rw [insertGrouped] at hkg
      by_cases hk : k' = k
      · rw [if_pos hk] at hkg
        rcases List.mem_cons.mp hkg with rfl | hmem
        · rcases List.mem_append.mp hx with hx' | hx'
          · exact hall (k', g) (List.mem_cons_self _ _) x hx'
          · rcases List.mem_singleton.mp hx' with rfl
            exact hv
        · exact hall kg (List.mem_cons_of_mem _ hmem) x hx
      · rw [if_neg hk] at hkg
        rcases List.mem_cons.mp hkg with rfl | hmem
        · exact hall (k', g) (List.mem_cons_self _ _) x hx
        · exact ih (fun kg' hkg' => hall kg' (List.mem_cons_of_mem _ hkg')) kg hmem x hx

/-- Every sales row stored in the `salesByLast4` index has a trimmed
reference accepted by `isValidSupplierRef`. -/
theorem salesByLast4_valid (sales : List (ℕ × SaleRec)) :
    GroupsAll (fun p : ℕ × SaleRec => isValidSupplierRef (jsTrim p.2.supplierRef) = true)
      (salesByLast4 sales) := by
  unfold salesByLast4
  apply foldlInv (I := GroupsAll
    (fun p : ℕ × SaleRec => isValidSupplierRef (jsTrim p.2.supplierRef) = true))
  · intro gs s hall
    by_cases hv : isValidSupplierRef (jsTrim s.2.supplierRef) = true
    · simpa [hv] using groupsAll_insertGrouped
        (P := fun p : ℕ × SaleRec => isValidSupplierRef (jsTrim p.2.supplierRef) = true)
        hv hall
    · simpa [hv] using hall
  · intro kg hkg
    simp at hkg

theorem lookupGroup_mem {α : Type} {k : List Char} {g : List α} :
    ∀ {gs : List (List Char × List α)}, lookupGroup k gs = some g → (k, g) ∈ gs := by
  intro gs
  induction gs with
  | nil => intro h; cases h
  | cons kg0 rest ih =>
      obtain ⟨k', g'⟩ := kg0
      intro h
      rw [lookupGroup] at h
      by_cases hk : k' = k
      · rw [if_pos hk] at h
        injection h with h'
        subst hk; subst h'
        exact List.mem_cons_self _ _
      · rw [if_neg hk] at h
        exact List.mem_cons_of_mem _ (ih h)

/-- A sale selected by `pickSale` is one of the candidates and has not been
consumed before. -/
theorem pickSale_spec {processed : List ℕ} {totalCartonsSent : ℚ}
    {cands : List (ℕ × SaleRec)} {p : ℕ × SaleRec}
    (h : pickSale processed totalCartonsSent cands = some p) :
    p ∈ cands ∧ ¬ p.1 ∈ processed := by
  unfold pickSale at h
  cases hfind : cands.find?
      (fun q => decide (¬ q.1 ∈ processed) && decide (q.2.sent = totalCartonsSent)) with
  | some q =>
      rw [hfind] at h
      injection h with h'
      subst h'
      refine ⟨List.mem_of_find?_eq_some hfind, ?_⟩
      have hq := List.find?_some hfind
      simp only [Bool.and_eq_true] at hq
      exact of_decide_eq_true hq.1
  | none =>
      rw [hfind] at h
      have h' : cands.find? (fun q => decide (¬ q.1 ∈ processed)) = some p := h
      refine ⟨List.mem_of_find?_eq_some h', ?_⟩
      have hq := List.find?_some h'
      exact of_decide_eq_true hq

theorem emitForGroup_good {consignNumber : List Char} {loadGroup : List LoadRec}
    {pick : Option (ℕ × SaleRec)}
    (hpick : ∀ p, pick = some p → isValidSupplierRef (jsTrim p.2.supplierRef) = true) :
    ∀ r ∈ emitForGroup consignNumber loadGroup pick, GoodRec r := by
  intro r hr
  cases pick with
  | some p =>
      simp only [emitForGroup] at hr
      have hv := hpick p rfl
      by_cases hs : 1 < loadGroup.length
      · rw [if_pos hs] at hr
        rcases List.mem_map.mp hr with ⟨load, -, rfl⟩
        exact goodRec_mkSplitMember hv
      · rw [if_neg hs] at hr
        cases loadGroup with
        | nil => simp at hr
        | cons load rest =>
            rcases List.mem_singleton.mp hr with rfl
            exact goodRec_mkMatched hv
  | none =>
      simp only [emitForGroup] at hr
      rcases List.mem_map.mp hr with ⟨load, -, rfl⟩
      exact goodRec_mkUnmatchedLoad

theorem groupCandidates_valid {salesIdx : List (List Char × List (ℕ × SaleRec))}
    (hIdx : GroupsAll (fun p : ℕ × SaleRec =>
      isValidSupplierRef (jsTrim p.2.supplierRef) = true) salesIdx)
    (consignNumber : List Char) :
    ∀ p ∈ groupCandidates salesIdx consignNumber,
      isValidSupplierRef (jsTrim p.2.supplierRef) = true := by
  intro p hp
  unfold groupCandidates at hp
  by_cases h4 : getLast4Digits consignNumber = []
  · rw [if_pos h4] at hp; simp at hp
  · rw [if_neg h4] at hp
    cases hlk : lookupGroup (getLast4Digits consignNumber) salesIdx with
    | none => rw [hlk] at hp; simp at hp
    | some g =>
        rw [hlk] at hp
        simp only [Option.getD_some] at hp
        exact hIdx _ (lookupGroup_mem hlk) p hp

theorem processGroup_inv {salesIdx : List (List Char × List (ℕ × SaleRec))}
    (hIdx : GroupsAll (fun p : ℕ × SaleRec =>
      isValidSupplierRef (jsTrim p.2.supplierRef) = true) salesIdx)
    (st : List MatchedRecord × List ℕ) (grp : List Char × List LoadRec)
    (h : StInv st) : StInv (processGroup salesIdx st grp) := by
  obtain ⟨hrec, hnd⟩ := h
  constructor
  · intro r hr
    rcases List.mem_append.mp hr with hmem | hmem
    · exact hrec r hmem
    · refine emitForGroup_good ?_ r hmem
      intro p hp
      exact groupCandidates_valid hIdx grp.1 p (pickSale_spec hp).1
  · show (match pickSale st.2 ((grp.2.map LoadRec.cartons).sum)
        (groupCandidates salesIdx grp.1) with
      | some p => st.2 ++ [p.1]
      | none => st.2).Nodup
    cases hpick : pickSale st.2 ((grp.2.map LoadRec.cartons).sum)
        (groupCandidates salesIdx grp.1) with
    | none => exact hnd
    | some p =>
        have hfresh := (pickSale_spec hpick).2
        simp [List.nodup_append, hnd, hfresh]

theorem matchState_inv (loads : List LoadRec) (sales : List SaleRec) :
    StInv (matchState loads sales) := by
  unfold matchState
  apply foldlInv (I := StInv)
  · intro st grp hst
    exact processGroup_inv (salesByLast4_valid sales.enum) st grp hst
  · exact ⟨fun r hr => absurd hr (by simp), List.nodup_nil⟩

theorem salesOnlyRecords_good (sales : List SaleRec) (processed : List ℕ) :
    ∀ r ∈ salesOnlyRecords sales processed, GoodRec r := by
  unfold salesOnlyRecords
  apply foldlInv (I := fun acc : List MatchedRecord => ∀ r ∈ acc, GoodRec r)
  · intro acc s hacc r hr
    unfold salesOnlyStep at hr
    by_cases h1 : s.1 ∈ processed
    · rw [if_pos h1] at hr
      exact hacc r hr
    · rw [if_neg h1] at hr
      by_cases h2 : isValidSupplierRef (jsTrim s.2.supplierRef) = true
      · rw [if_pos h2] at hr
        rcases List.mem_append.mp hr with hmem | hmem
        · exact hacc r hmem
        · rcases List.mem_singleton.mp hmem with rfl
          exact goodRec_mkSalesOnly rfl h2
      · rw [if_neg h2] at hr
        exact hacc r hr
  · intro r hr
    simp at hr

/-- Every record produced by `matchData` satisfies the shape invariant. -/
theorem goodRec_of_mem {loads : List LoadRec} {sales : List SaleRec}
    {r : MatchedRecord} (hr : r ∈ matchData loads sales) : GoodRec r := by
  unfold matchData at hr
  rcases List.mem_append.mp hr with h | h
  · exact (matchState_inv loads sales).1 r h
  · exact salesOnlyRecords_good sales _ r h

theorem salesOnlyStep_fold_eq (processed : List ℕ) :
    ∀ (l : List (ℕ × SaleRec)) (acc : List MatchedRecord),
      l.foldl (salesOnlyStep processed) acc =
        acc ++ (l.filter (fun s => decide (¬ s.1 ∈ processed) &&
            isValidSupplierRef (jsTrim s.2.supplierRef))).map
          (fun s => mkSalesOnly (jsTrim s.2.supplierRef) s.2) := by
  intro l
  induction l with
  | nil => intro acc; simp
  | cons x xs ih =>
      intro acc
      rw [List.foldl_cons, List.filter_cons]
      by_cases h1 : x.1 ∈ processed
      · have hstep : salesOnlyStep processed acc x = acc := by
          rw [salesOnlyStep, if_pos h1]
        rw [hstep, ih]
        simp [h1]
      · by_cases h2 : isValidSupplierRef (jsTrim x.2.supplierRef) = true
        · have hstep : salesOnlyStep processed acc x =
              acc ++ [mkSalesOnly (jsTrim x.2.supplierRef) x.2] := by
            rw [salesOnlyStep, if_neg h1, if_pos h2]
          rw [hstep, ih]
          simp [h1, h2]
        · have hstep : salesOnlyStep processed acc x = acc := by
            rw [salesOnlyStep, if_neg h1, if_neg h2]
          rw [hstep, ih]
          simp [h1, h2]

theorem not_invalid_of_valid {s : List Char}
    (h : isValidSupplierRef s = true) : ¬ InvalidRefStr s := by
  obtain ⟨-, hd, hp, hdig⟩ := valid_facts h
  rintro (h1 | h1 | h1)
  · rw [hd] at h1; cases h1
  · rw [hp] at h1; cases h1
  · rw [hdig] at h1; cases h1

/-- If the trimmed reference passes the validity filter then the raw
reference is not structurally invalid: the markers contain no whitespace, so
they would survive trimming, and a digit inside the trimmed string is a digit
of the raw string. -/
theorem not_invalid_of_valid_jsTrim {s : List Char}
    (h : isValidSupplierRef (jsTrim s) = true) : ¬ InvalidRefStr s := by
  obtain ⟨-, hd, hp, hdig⟩ := valid_facts h
  rintro (h1 | h1 | h1)
  · have hseg := (containsSeq_iff destMarker s).mp h1
    have hseg2 := subSeg_jsTrim (by decide)
      (by decide : ∀ c ∈ destMarker, isWS c = false) hseg
    have h2 := (containsSeq_iff destMarker (jsTrim s)).mpr hseg2
    rw [hd] at h2; cases h2
  · have hseg := (containsSeq_iff preMarker s).mp h1
    have hseg2 := subSeg_jsTrim (by decide)
      (by decide : ∀ c ∈ preMarker, isWS c = false) hseg
    have h2 := (containsSeq_iff preMarker (jsTrim s)).mpr hseg2
    rw [hp] at h2; cases h2
  · have h2 := List.any_eq_true.mp hdig
    rcases h2 with ⟨c, hc, hcd⟩
    have h3 : s.any Char.isDigit = true :=
      List.any_eq_true.mpr ⟨c, mem_of_mem_jsTrim hc, hcd⟩
    rw [h1] at h3; cases h3

/-! ### Claims -/

/-- C1: for every pair of load and sales inputs, every record emitted by
`matchData` — in all four branches — satisfies
`deviationSentReceived = cartonsSent - received` and
`deviationReceivedSold = received - soldOnMarket` exactly. -/
theorem matchData_deviations (loads : List LoadRec) (sales : List SaleRec)
    (r : MatchedRecord) (hr : r ∈ matchData loads sales) :
    r.deviationSentReceived = r.cartonsSent - r.received ∧
    r.deviationReceivedSold = r.received - r.soldOnMarket :=
  ⟨(goodRec_of_mem hr).1, (goodRec_of_mem hr).2.1⟩

/-- Witness for C1 at a concrete run: the sole output record of
`matchData [demoLoad] []`. -/
theorem matchData_deviations_witness :
    demoRec.deviationSentReceived = demoRec.cartonsSent - demoRec.received ∧
    demoRec.deviationReceivedSold = demoRec.received - demoRec.soldOnMarket :=
  matchData_deviations [demoLoad] [] demoRec (by with_unfolding_all decide)

/-- C2: for every output record of `matchData`: a non-Split record is
reconciled only under exact triple equality; a Split record is reconciled
exactly when both deviations are within ±1; an Unmatched record is never
reconciled. -/
theorem matchData_reconciled_policy (loads : List LoadRec) (sales : List SaleRec)
    (r : MatchedRecord) (hr : r ∈ matchData loads sales) :
    (r.status ≠ Status.Split → r.reconciled = true →
      r.cartonsSent = r.received ∧ r.received = r.soldOnMarket) ∧
    (r.status = Status.Split →
      (r.reconciled = true ↔
        (|r.cartonsSent - r.received| ≤ 1 ∧ |r.received - r.soldOnMarket| ≤ 1))) ∧
    (r.status = Status.Unmatched → r.reconciled = false) := by
  have hg := goodRec_of_mem hr
  refine ⟨?_, hg.2.2.2.2.1, hg.2.2.1⟩
  intro hns hrec
  cases hstat : r.status with
  | Matched => exact (hg.2.2.2.1 hstat).mp hrec
  | Unmatched => rw [hg.2.2.1 hstat] at hrec; cases hrec
  | Split => exact absurd hstat hns

/-- Witness for C2 at a concrete run: the sole (Unmatched) output record of
`matchData [demoLoad] []` is not reconciled. -/
theorem matchData_reconciled_policy_witness : demoRec.reconciled = false :=
  (matchData_reconciled_policy [demoLoad] [] demoRec
    (by with_unfolding_all decide)).2.2 rfl

/-- C3: on scenario C (two loads of 60 and 40 cartons sharing consignment
`Z1C0801999`, one sales row keyed `1999` with sent 100, sold 80, value 1000)
`matchData` returns exactly two Split records with proportional received
60/40, proportional sold 48/32 and proportional value 600/400. -/
theorem matchData_scenarioC :
    (matchData c3Loads c3Sales).length = 2 ∧
    (matchData c3Loads c3Sales).map
        (fun r => (r.status, r.received, r.soldOnMarket, r.proportionalValue)) =
      [(Status.Split, 60, 48, some 600), (Status.Split, 40, 32, some 400)] := by
  with_unfolding_all decide

/-- C4: the statistics counters always satisfy
`matchedCount + unmatchedCount + splitCount = totalRecords`, and
`totalRecords` is the length of the input list. -/
theorem calculateStatistics_counts (data : List MatchedRecord) :
    ((calculateStatistics data).matchedCount : ℤ) +
        (calculateStatistics data).unmatchedCount +
        (calculateStatistics data).splitCount =
      ((calculateStatistics data).totalRecords : ℤ) ∧
    (calculateStatistics data).totalRecords = data.length := by
  refine ⟨?_, rfl⟩
  show ((data.filter (fun r => decide (r.status = Status.Matched))).length : ℤ) +
      ((data.length : ℤ) -
        (data.filter (fun r => decide (r.status = Status.Matched))).length -
        (data.filter (fun r => decide (r.status = Status.Split))).length) +
      (data.filter (fun r => decide (r.status = Status.Split))).length =
    (data.length : ℤ)
  ring

/-- C5: `matchRate` is `(matchedCount + splitCount) / totalRecords * 100`
for nonempty inputs and the defined value `0` (no NaN, no error) on the
empty input. -/
theorem calculateStatistics_matchRate (data : List MatchedRecord) :
    (0 < data.length →
      (calculateStatistics data).matchRate =
        (((calculateStatistics data).matchedCount : ℚ) +
            ((calculateStatistics data).splitCount : ℚ)) /
          ((calculateStatistics data).totalRecords : ℚ) * 100) ∧
    (data.length = 0 → (calculateStatistics data).matchRate = 0) := by
  constructor
  · intro hpos
    show (if 0 < data.length then _ else 0) = _
    rw [if_pos hpos]
    rfl
  · intro hzero
    show (if 0 < data.length then _ else 0) = 0
    rw [if_neg (by omega)]

/-- Witness for C5: both branches discharged on concrete inputs. -/
theorem calculateStatistics_matchRate_witness :
    (calculateStatistics []).matchRate = 0 ∧
    (calculateStatistics [demoRec]).matchRate =
      (((calculateStatistics [demoRec]).matchedCount : ℚ) +
          ((calculateStatistics [demoRec]).splitCount : ℚ)) /
        ((calculateStatistics [demoRec]).totalRecords : ℚ) * 100 :=
  ⟨(calculateStatistics_matchRate []).2 rfl,
   (calculateStatistics_matchRate [demoRec]).1 (by decide)⟩

/-- C6 as stated is false at the empty reference: a sales row whose
reference cell is empty (hence has no digit, i.e. is invalid) coexists with
an output record that carries that same empty string as its `supplierRef`
(the Unmatched load record uses `''` as its placeholder). -/
theorem matchData_invalidRef_counterexample :
    c6Sale.supplierRef.any Char.isDigit = false ∧
    (matchData [demoLoad] [c6Sale]).map MatchedRecord.supplierRef =
      [c6Sale.supplierRef] := by
  with_unfolding_all decide

/-- C6 (amended: restricted to nonempty references): for every sales input
row whose reference contains `DESTINATION:` or `(Pre)` or no digit, if that
reference is nonempty then no output record of `matchData` carries it as its
`supplierRef` — such a row is neither indexed for matching nor emitted as a
synthetic sales-only record. -/
theorem matchData_invalidRef_excluded (loads : List LoadRec)
    (sales : List SaleRec) (s : List Char) (r : MatchedRecord)
    (hinv : InvalidRefStr s) (hne : s ≠ []) (hr : r ∈ matchData loads sales) :
    r.supplierRef ≠ s := by
  intro heq
  rcases (goodRec_of_mem hr).2.2.2.2.2 with hplaceholder | ⟨s0, hcase, hval⟩
  · exact hne (by rw [← heq, hplaceholder])
  rcases hcase with h0 | h0
  · have hs0 : s0 = s := by rw [← heq, h0]
    rw [hs0] at hval
    exact not_invalid_of_valid_jsTrim hval hinv
  · have hs0 : jsTrim s0 = s := by rw [← heq, h0]
    rw [hs0] at hval
    exact not_invalid_of_valid hval hinv

/-- Witness for the amended C6 at a concrete run and reference. -/
theorem matchData_invalidRef_excluded_witness :
    demoRec.supplierRef ≠ "NOPE".toList :=
  matchData_invalidRef_excluded [demoLoad] [] "NOPE".toList demoRec
    (Or.inr (Or.inr (by decide))) (by decide) (by with_unfolding_all decide)

/-- C9: each sales row is consumed by at most one consignment group (the
consumed-positions list is duplicate-free), and the trailing pass emits a
synthetic record exactly for the valid sales rows whose position was never
consumed. -/
theorem matchData_consumesSalesOnce (loads : List LoadRec) (sales : List SaleRec) :
    (matchState loads sales).2.Nodup ∧
    salesOnlyRecords sales (matchState loads sales).2 =
      ((sales.enum.filter (fun s => decide (¬ s.1 ∈ (matchState loads sales).2) &&
          isValidSupplierRef (jsTrim s.2.supplierRef))).map
        (fun s => mkSalesOnly (jsTrim s.2.supplierRef) s.2)) := by
  refine ⟨(matchState_inv loads sales).2, ?_⟩
  unfold salesOnlyRecords
  rw [salesOnlyStep_fold_eq]
  simp

/-- C10: on scenario C, both Split member records carry the sales row's full
`totalValue` 1000 (the member share lives only in `proportionalValue`), so
`calculateStatistics` totals that sales value twice (2000). -/
theorem matchData_splitTotalValue_duplicated :
    (matchData c3Loads c3Sales).map
        (fun r => (r.status, r.totalValue, r.proportionalValue)) =
      [(Status.Split, 1000, some 600), (Status.Split, 1000, some 400)] ∧
    (calculateStatistics (matchData c3Loads c3Sales)).totalValue = 2000 := by
  with_unfolding_all decide

/-- C7 as stated is false: on `c7Rows` both accumulated scores are at or
below the floor 5, yet `inferFileType` returns `load` (the fallback
consignment-shape sniffer fires), not `unknown`. -/
theorem inferFileType_floor_counterexample :
    (sampleScores (c7Rows.take 10)).1 ≤ 5 ∧
    (sampleScores (c7Rows.take 10)).2 ≤ 5 ∧
    c7Rows ≠ [] ∧
    inferFileType c7Rows = FileType.load := by
  with_unfolding_all decide

/-- C7 (amended): when both accumulated scores are at or below the floor 5
AND neither fallback value-shape sniffer fires on the sample,
`inferFileType` returns `unknown`; the empty input (0 rows, for which all
four hypotheses hold trivially) is `unknown` immediately. -/
theorem inferFileType_unknown_below_floor (data : List Row)
    (hl : (sampleScores (data.take 10)).1 ≤ 5)
    (hs : (sampleScores (data.take 10)).2 ≤ 5)
    (hc : hasConsignmentPattern (data.take 10) = false)
    (hm : hasMonetaryPattern (data.take 10) = false) :
    inferFileType data = FileType.unknown := by
  unfold inferFileType
  rcases Nat.eq_zero_or_pos data.length with h0 | h0
  · rw [if_pos h0]
  · rw [if_neg (by omega)]
    rw [if_neg (fun h => absurd h.2 (by omega))]
    rw [if_neg (fun h => absurd h.2 (by omega))]
    rw [if_neg (by simp [hc])]
    rw [if_neg (by simp [hm])]

/-- Witness for the amended C7 on a concrete patternless sample. -/
theorem inferFileType_unknown_below_floor_witness :
    inferFileType c7Benign = FileType.unknown :=
  inferFileType_unknown_below_floor c7Benign (by with_unfolding_all decide)
    (by with_unfolding_all decide) (by with_unfolding_all decide)
    (by with_unfolding_all decide)

/-- C8 as stated is false: for the cell `"1-2"` the stripped remainder is
the nonempty unparseable string `"1-2"`, and `extractNumber` returns NaN
(`none`), not `0`. -/
theorem extractNumber_nan_counterexample :
    stripNonNumeric "1-2".toList ≠ [] ∧
    jsNumber (stripNonNumeric "1-2".toList) = none ∧
    extractNumber (CellValue.str "1-2".toList) = none ∧
    extractNumber (CellValue.str "1-2".toList) ≠ some 0 := by
  with_unfolding_all decide

/-- C8 (amended): numeric extraction is total and never raises; an empty
stripped remainder yields `0`, but a nonempty remainder is handed to the JS
numeric parse, whose NaN is passed through by `extractNumber`; the sales
`totalValue` path maps NaN to `0`; a field with no mapped column defaults to
`0` for numeric fields and the empty string for text fields. -/
theorem extractNumber_amended (s : List Char) :
    (stripNonNumeric s = [] → extractNumber (CellValue.str s) = some 0) ∧
    (s ≠ [] → stripNonNumeric s ≠ [] →
      extractNumber (CellValue.str s) = jsNumber (stripNonNumeric s)) ∧
    (jsNumber (stripNonNumeric s) = none →
      normalizeTotalValue (some (CellValue.str s)) = 0) ∧
    normalizeTotalValue none = 0 ∧ normalizeTextField none = [] := by
  refine ⟨?_, ?_, ?_, rfl, rfl⟩
  · intro h
    show (if s = [] then some 0
      else if stripNonNumeric s = [] then some 0
      else jsNumber (stripNonNumeric s)) = some 0
    by_cases h1 : s = []
    · rw [if_pos h1]
    · rw [if_neg h1, if_pos h]
  · intro h1 h2
    show (if s = [] then some 0
      else if stripNonNumeric s = [] then some 0
      else jsNumber (stripNonNumeric s)) = jsNumber (stripNonNumeric s)
    rw [if_neg h1, if_neg h2]
  · intro h
    simp only [normalizeTotalValue, h]

/-- Witness for the amended C8 on a concrete digit-free cell. -/
theorem extractNumber_amended_witness :
    extractNumber (CellValue.str "abc".toList) = some 0 ∧
    normalizeTotalValue none = 0 ∧ normalizeTextField none = [] :=
  ⟨(extractNumber_amended "abc".toList).1 (by decide),
   (extractNumber_amended "abc".toList).2.2.2⟩

end DataTwirl
